import Mathlib

/-!
Verification of the auction subsystem of the municipal-flag NFT backend.

The definitions below are a shallow embedding of the auction code in
src/original_backend/routers/auctions.py together with the auction request
schemas of src/original_backend/schemas.py.  Modelling conventions:

* SQL Numeric(18,8) decimal amounts are modelled as exact rationals (Rat);
  the float() conversion the winner sort key applies to them is modelled by
  floatRepr, correct rounding to the nearest IEEE-754 double (ties to
  even), which is lossy on 17-digit amounts.
* datetimes are modelled as integers (an abstract clock value); the auction
  duration is counted in the same unit.
* database tables are modelled as lists whose autoincrement primary key is
  the list index; bids are stored inside their auction in insertion order,
  which is the order of their created_at timestamps.
* Python truthiness tests on Decimal columns are modelled explicitly
  (None and 0 are falsy).
-/

namespace FlagAuction

/-- Enum FlagCategory of models.py (lines 18-22). -/
inductive FlagCategory
| standard
| plus
| premium
deriving DecidableEq

/-- Enum AuctionStatus of models.py (lines 38-42). -/
inductive AuctionStatus
| active
| closed
| cancelled
deriving DecidableEq

/-- Dictionary CATEGORY_PRIORITY of auctions.py (lines 27-31).  It is total
on the three categories, so the lookup default 1 used at line 130 of the
source is never reached and is not modelled separately. -/
def CATEGORY_PRIORITY : FlagCategory → Int
| .standard => 1
| .plus => 2
| .premium => 3

/-- A Bid row (models.py lines 332-347).  The id and auction_id columns are
represented by the position of the bid inside its auction's bid list. -/
structure Bid where
  bidder_id : Nat
  amount : Rat
  bidder_category : FlagCategory
  created_at : Int
deriving DecidableEq

/-- Floor of the base-2 logarithm of a natural number, written with an
explicit fuel argument so that the kernel can evaluate it (log2fuel n n
computes Nat.log2 n for every n). -/
def log2fuel : Nat → Nat → Nat
| 0, _ => 0
| fuel + 1, n => if n ≤ 1 then 0 else log2fuel fuel (n / 2) + 1

/-- Floor of the base-2 logarithm (0 at 0). -/
def log2nat (n : Nat) : Nat := log2fuel n n

/-- Whether 2^k is at most the fraction n/d (d positive), by cross
multiplication in the naturals. -/
def pow2LE (k : Int) (n d : Nat) : Bool :=
  if 0 ≤ k then decide (d * 2 ^ k.toNat ≤ n) else decide (d ≤ n * 2 ^ (-k).toNat)

/-- The fraction n/d (d positive) rounded to the nearest natural number,
ties to even. -/
def roundHalfEvenFrac (n d : Nat) : Nat :=
  let fl := n / d
  let r := n % d
  if 2 * r < d then fl
  else if d < 2 * r then fl + 1
  else if fl % 2 = 0 then fl else fl + 1

/-- The non-negative fraction n/d (d positive) correctly rounded to the
nearest IEEE-754 binary64 value (ties to even), as an exact rational: the
exponent e is the floor of log2 (n/d), found next to log2 n - log2 d by
comparison, and the 53-bit significand is n/d divided by the unit in the
last place 2^(e-52) and rounded half to even.  Overflow and subnormal
underflow are not modelled; Numeric(18,8) values lie far inside the normal
double range. -/
def floatReprPos (n d : Nat) : Rat :=
  let e0 : Int := (log2nat n : Int) - (log2nat d : Int)
  let e : Int := if pow2LE (e0 + 1) n d then e0 + 1 else if pow2LE e0 n d then e0 else e0 - 1
  let s : Int := e - 52
  let m : Nat :=
    if 0 ≤ s then roundHalfEvenFrac n (d * 2 ^ s.toNat)
    else roundHalfEvenFrac (n * 2 ^ (-s).toNat) d
  if 0 ≤ s then ((m * 2 ^ s.toNat : Nat) : Rat) else mkRat (m : Int) (2 ^ (-s).toNat)

/-- The value of Python float(q) for a decimal amount q: the nearest
IEEE-754 double, as an exact rational. -/
def floatRepr (q : Rat) : Rat :=
  if q.num < 0 then -(floatReprPos q.num.natAbs q.den) else floatReprPos q.num.natAbs q.den

/-- The sort key of determine_winner (auctions.py lines 126-133):
(-float(amount), -category priority, created_at).  The float conversion of
the Decimal amount at line 129 is modelled by floatRepr, so distinct
decimals that round to the same double (possible within Numeric(18,8),
whose 18 digits exceed the ~16 a double carries) tie on the first
component exactly as they do in the program. -/
def bidKey (b : Bid) : Rat × Int × Int :=
  (-(floatRepr b.amount), -(CATEGORY_PRIORITY b.bidder_category), b.created_at)

/-- Strict lexicographic order on sort keys, as produced by comparing the
Python key tuples. -/
def keyLT (k l : Rat × Int × Int) : Prop :=
  k.1 < l.1 ∨ (k.1 = l.1 ∧ (k.2.1 < l.2.1 ∨ (k.2.1 = l.2.1 ∧ k.2.2 < l.2.2)))

/-- Reflexive closure of the key order. -/
def keyLE (k l : Rat × Int × Int) : Prop :=
  keyLT k l ∨ k = l

instance (k l : Rat × Int × Int) : Decidable (keyLT k l) := by
  unfold keyLT
  exact inferInstance

instance (k l : Rat × Int × Int) : Decidable (keyLE k l) := by
  unfold keyLE
  exact inferInstance

/-- Selection of sorted(bids, key)[0] from determine_winner.  Python's sorted
is stable, so the head of the sorted list is the leftmost bid with minimal
key; equivalently (as noted in the design spec) a left fold that replaces the
running best only on strict key improvement. -/
def pickWinner (best : Bid) : List Bid → Bid
| [] => best
| c :: rest => pickWinner (if keyLT (bidKey c) (bidKey best) then c else best) rest

/-- Function determine_winner of auctions.py (lines 115-135). -/
def determine_winner : List Bid → Option Bid
| [] => none
| b :: bs => some (pickWinner b bs)

/-- A User row (models.py lines 178-187) restricted to the columns the
auction subsystem touches: wallet_address and reputation_score (default 0).
The id column is the row index in the users table. -/
abbrev UserRow := String × Int

/-- An Auction row (models.py lines 290-320).  The id column is the row index
in the auctions table; the bids relationship is stored inline, in insertion
order. -/
structure Auction where
  flag_id : Nat
  seller_id : Nat
  starting_price : Rat
  min_price : Rat
  buyout_price : Option Rat
  current_highest_bid : Option Rat
  highest_bidder_id : Option Nat
  winner_category : Option FlagCategory
  status : AuctionStatus
  ends_at : Int
  bids : List Bid
deriving DecidableEq

/-- The database state seen by the auctions router: the flags table reduced
to its primary keys, the flag_ownerships table reduced to (flag_id, user_id)
pairs, and the users and auctions tables. -/
structure World where
  flags : List Nat
  ownerships : List (Nat × Nat)
  users : List UserRow
  auctions : List Auction
deriving DecidableEq

/-- The error conditions raised by the auctions router, one per
HTTPException site. -/
inductive ApiError
| validationFailed
| flagNotFound
| auctionNotFound
| notOwner
| activeExists
| notActive
| auctionEnded
| ownAuction
| belowMinPrice
| notAboveHighest
| belowStartingPrice
| noBuyoutOption
| notSeller
| notEndedYet
| hasBids
deriving DecidableEq

instance {e a : Type} [DecidableEq e] [DecidableEq a] : DecidableEq (Except e a) := fun
  | .error x, .error y => decidable_of_iff (x = y) (by simp)
  | .error _, .ok _ => isFalse (by simp)
  | .ok _, .error _ => isFalse (by simp)
  | .ok x, .ok y => decidable_of_iff (x = y) (by simp)

/-- HTTP status code attached to each raise site (422 is FastAPI's code for
pydantic request-validation failures). -/
def httpStatus : ApiError → Nat
| .validationFailed => 422
| .flagNotFound => 404
| .auctionNotFound => 404
| .notOwner => 403
| .notSeller => 403
| _ => 400

/-- Python str.lower restricted to ASCII (wallet addresses are hex
strings), written with structural recursion so that proofs can evaluate
it. -/
def lowerChar (c : Char) : Char :=
  if 'A' ≤ c ∧ c ≤ 'Z' then Char.ofNat (c.toNat + 32) else c

/-- Python wallet.lower(). -/
def pyLower (s : String) : String :=
  ⟨s.data.map lowerChar⟩

/-- Python wallet.startswith of the 0x prefix. -/
def startsWith0x (s : String) : Bool :=
  decide (s.data.take 2 = ['0', 'x'])

/-- First row index of the users table holding the given (already
lowercased) wallet address; models the query of auctions.py line 37. -/
def findUserIdx : List UserRow → String → Option Nat
| [], _ => none
| u :: rest, wa => if u.1 = wa then some 0 else (findUserIdx rest wa).map (· + 1)

/-- Function get_or_create_user of auctions.py (lines 34-43).  Returns the
possibly extended world together with the id of the resolved user; a newly
created user gets the next row index as id and reputation_score 0. -/
def get_or_create_user (w : World) (wallet_address : String) : World × Nat :=
  let wallet := pyLower wallet_address
  match findUserIdx w.users wallet with
  | some i => (w, i)
  | none => ({ w with users := w.users ++ [(wallet, 0)] }, w.users.length)

/-- In-place update user.reputation_score += delta (no-op when the id is
absent, matching the guarded lookup of auctions.py lines 456-458). -/
def add_reputation (users : List UserRow) (uid : Nat) (delta : Int) : List UserRow :=
  match users[uid]? with
  | some u => users.set uid (u.1, u.2 + delta)
  | none => users

/-- Request body AuctionCreate of schemas.py (lines 334-370), before
validation. -/
structure AuctionCreateRaw where
  flag_id : Nat
  wallet_address : String
  starting_price : Rat
  min_price : Option Rat
  buyout_price : Option Rat
  duration_hours : Int
deriving DecidableEq

/-- A validated AuctionCreate: the wallet is lowercased and min_price has
been defaulted to starting_price by the model validator. -/
structure AuctionCreate where
  flag_id : Nat
  wallet_address : String
  starting_price : Rat
  min_price : Rat
  buyout_price : Option Rat
  duration_hours : Int
deriving DecidableEq

/-- Request body BidCreate of schemas.py (lines 405-421), before
validation.  bidder_category already carries its default standard. -/
structure BidCreateRaw where
  wallet_address : String
  amount : Rat
  bidder_category : FlagCategory
deriving DecidableEq

/-- A validated BidCreate (wallet lowercased, amount known positive). -/
structure BidCreate where
  wallet_address : String
  amount : Rat
  bidder_category : FlagCategory
deriving DecidableEq

/-- Request body BuyoutCreate (wallet_address only), before validation. -/
structure BuyoutCreateRaw where
  wallet_address : String
deriving DecidableEq

/-- A validated BuyoutCreate. -/
structure BuyoutCreate where
  wallet_address : String
deriving DecidableEq

/-- Field constraints of the wallet_address fields: exactly 42 characters
and a 0x prefix. -/
def validWallet (s : String) : Bool :=
  s.length == 42 && startsWith0x s

/-- Field constraint gt=0 lifted to optional fields. -/
def posOpt : Option Rat → Bool
| none => true
| some x => decide (0 < x)

/-- Validator validate_buyout_price of schemas.py (lines 363-370): a present
buyout price must be strictly greater than the starting price. -/
def buyoutGtStarting : Option Rat → Rat → Bool
| none, _ => true
| some bp, sp => decide (sp < bp)

/-- Pydantic validation of AuctionCreate: field constraints, the wallet and
buyout-price validators, and the model validator defaulting min_price to
starting_price.  Returns none when the request is rejected with a 422. -/
def validateAuctionCreate (r : AuctionCreateRaw) : Option AuctionCreate :=
  if validWallet r.wallet_address &&
      decide (0 < r.starting_price) &&
      posOpt r.min_price &&
      posOpt r.buyout_price &&
      buyoutGtStarting r.buyout_price r.starting_price &&
      decide (1 ≤ r.duration_hours) && decide (r.duration_hours ≤ 168) then
    some {
      flag_id := r.flag_id
      wallet_address := pyLower r.wallet_address
      starting_price := r.starting_price
      min_price := r.min_price.getD r.starting_price
      buyout_price := r.buyout_price
      duration_hours := r.duration_hours }
  else none

/-- Pydantic validation of BidCreate: wallet constraints and amount gt=0. -/
def validateBidCreate (r : BidCreateRaw) : Option BidCreate :=
  if validWallet r.wallet_address && decide (0 < r.amount) then
    some {
      wallet_address := pyLower r.wallet_address
      amount := r.amount
      bidder_category := r.bidder_category }
  else none

/-- Pydantic validation of BuyoutCreate: wallet constraints only. -/
def validateBuyoutCreate (r : BuyoutCreateRaw) : Option BuyoutCreate :=
  if validWallet r.wallet_address then
    some { wallet_address := pyLower r.wallet_address }
  else none

/-- Handler create_auction of auctions.py (lines 201-260), past request
validation.  ends_at is now plus the duration (one abstract time unit per
hour). -/
def create_auction (now : Int) (w : World) (d : AuctionCreate) :
    World × Except ApiError Auction :=
  if d.flag_id ∈ w.flags then
    let wu := get_or_create_user w d.wallet_address
    if (d.flag_id, wu.2) ∈ wu.1.ownerships then
      if wu.1.auctions.any (fun a => decide (a.flag_id = d.flag_id ∧ a.status = .active)) then
        (wu.1, .error .activeExists)
      else
        let a : Auction := {
          flag_id := d.flag_id
          seller_id := wu.2
          starting_price := d.starting_price
          min_price := d.min_price
          buyout_price := d.buyout_price
          current_highest_bid := none
          highest_bidder_id := none
          winner_category := none
          status := .active
          ends_at := now + d.duration_hours
          bids := [] }
        ({ wu.1 with auctions := wu.1.auctions ++ [a] }, .ok a)
    else (wu.1, .error .notOwner)
  else (w, .error .flagNotFound)

/-- Python truthiness of auctions.py line 315: the too-low check fires only
when current_highest_bid is non-None and nonzero (Decimal 0 is falsy) and
the candidate amount does not exceed it. -/
def highestBlocks : Option Rat → Rat → Bool
| none, _ => false
| some c, amt => decide (¬ c = 0) && decide (amt ≤ c)

/-- Handler place_bid of auctions.py (lines 263-344), past request
validation. -/
def place_bid (now : Int) (w : World) (auction_id : Nat) (d : BidCreate) :
    World × Except ApiError Bid :=
  match w.auctions[auction_id]? with
  | none => (w, .error .auctionNotFound)
  | some a =>
    if a.status ≠ .active then (w, .error .notActive)
    else if a.ends_at < now then (w, .error .auctionEnded)
    else
      let wu := get_or_create_user w d.wallet_address
      if wu.2 = a.seller_id then (wu.1, .error .ownAuction)
      else if d.amount < a.min_price then (wu.1, .error .belowMinPrice)
      else if highestBlocks a.current_highest_bid d.amount then (wu.1, .error .notAboveHighest)
      else if d.amount < a.starting_price then (wu.1, .error .belowStartingPrice)
      else
        let bid : Bid := {
          bidder_id := wu.2
          amount := d.amount
          bidder_category := d.bidder_category
          created_at := now }
        let a' := { a with
          bids := a.bids ++ [bid]
          current_highest_bid := some d.amount
          highest_bidder_id := some wu.2 }
        ({ wu.1 with auctions := wu.1.auctions.set auction_id a' }, .ok bid)

/-- Handler buyout_auction of auctions.py (lines 347-407), past request
validation. -/
def buyout_auction (now : Int) (w : World) (auction_id : Nat) (d : BuyoutCreate) :
    World × Except ApiError Auction :=
  match w.auctions[auction_id]? with
  | none => (w, .error .auctionNotFound)
  | some a =>
    if a.status ≠ .active then (w, .error .notActive)
    else
      match a.buyout_price with
      | none => (w, .error .noBuyoutOption)
      | some bp =>
        if a.ends_at < now then (w, .error .auctionEnded)
        else
          let wu := get_or_create_user w d.wallet_address
          if wu.2 = a.seller_id then (wu.1, .error .ownAuction)
          else
            let a' := { a with
              status := AuctionStatus.closed
              current_highest_bid := some bp
              highest_bidder_id := some wu.2 }
            ({ wu.1 with
                auctions := wu.1.auctions.set auction_id a'
                users := add_reputation wu.1.users wu.2 20 }, .ok a')

/-- Handler close_auction of auctions.py (lines 410-463). -/
def close_auction (now : Int) (w : World) (auction_id : Nat) :
    World × Except ApiError Auction :=
  match w.auctions[auction_id]? with
  | none => (w, .error .auctionNotFound)
  | some a =>
    if a.status ≠ .active then (w, .error .notActive)
    else if now < a.ends_at then (w, .error .notEndedYet)
    else
      match determine_winner a.bids with
      | some wb =>
        let a' := { a with
          status := AuctionStatus.closed
          highest_bidder_id := some wb.bidder_id
          current_highest_bid := some wb.amount
          winner_category := some wb.bidder_category }
        ({ w with
            auctions := w.auctions.set auction_id a'
            users := add_reputation w.users wb.bidder_id 15 }, .ok a')
      | none =>
        let a' := { a with status := AuctionStatus.closed }
        ({ w with auctions := w.auctions.set auction_id a' }, .ok a')

/-- Handler cancel_auction of auctions.py (lines 466-505).  The requester is
looked up (never created); the seller check precedes the status check, and
the has-bids check is an is-not-None test on current_highest_bid. -/
def cancel_auction (w : World) (auction_id : Nat) (wallet_address : String) :
    World × Except ApiError Unit :=
  match w.auctions[auction_id]? with
  | none => (w, .error .auctionNotFound)
  | some a =>
    match findUserIdx w.users (pyLower wallet_address) with
    | none => (w, .error .notSeller)
    | some uid =>
      if uid ≠ a.seller_id then (w, .error .notSeller)
      else if a.status ≠ .active then (w, .error .notActive)
      else if a.current_highest_bid.isSome then (w, .error .hasBids)
      else
        ({ w with auctions := w.auctions.set auction_id { a with status := AuctionStatus.cancelled } },
          .ok ())

/-- POST /auctions: request validation then create_auction. -/
def createAuctionApi (now : Int) (w : World) (r : AuctionCreateRaw) :
    World × Except ApiError Auction :=
  match validateAuctionCreate r with
  | none => (w, .error .validationFailed)
  | some d => create_auction now w d

/-- POST /auctions/{id}/bid: request validation then place_bid. -/
def placeBidApi (now : Int) (w : World) (auction_id : Nat) (r : BidCreateRaw) :
    World × Except ApiError Bid :=
  match validateBidCreate r with
  | none => (w, .error .validationFailed)
  | some d => place_bid now w auction_id d

/-- POST /auctions/{id}/buyout: request validation then buyout_auction. -/
def buyoutApi (now : Int) (w : World) (auction_id : Nat) (r : BuyoutCreateRaw) :
    World × Except ApiError Auction :=
  match validateBuyoutCreate r with
  | none => (w, .error .validationFailed)
  | some d => buyout_auction now w auction_id d

/-- One externally triggered transition of the auction subsystem: any of the
five mutating endpoints, invoked at any clock value with any request. -/
inductive Step : World → World → Prop
| createA (w : World) (now : Int) (r : AuctionCreateRaw) :
    Step w (createAuctionApi now w r).1
| placeB (w : World) (now : Int) (aid : Nat) (r : BidCreateRaw) :
    Step w (placeBidApi now w aid r).1
| buyoutA (w : World) (now : Int) (aid : Nat) (r : BuyoutCreateRaw) :
    Step w (buyoutApi now w aid r).1
| closeA (w : World) (now : Int) (aid : Nat) :
    Step w (close_auction now w aid).1
| cancelA (w : World) (aid : Nat) (wa : String) :
    Step w (cancel_auction w aid wa).1

/-- Worlds reachable through the auctions router, starting from any database
state whose auctions table is empty. -/
inductive Reachable : World → Prop
| init (w : World) (h : w.auctions = []) : Reachable w
| step {w w' : World} (h : Reachable w) (s : Step w w') : Reachable w'

/-- Amounts of the stored bids are strictly increasing in insertion order
(which is creation order: each accepted bid is appended with the current
clock as created_at). -/
def amountsChain (a : Auction) : Prop :=
  List.Chain' (fun b c : Bid => b.amount < c.amount) a.bids

/-- All stored bid amounts are positive (enforced by the gt=0 schema
constraint on BidCreate.amount). -/
def amountsPos (a : Auction) : Prop :=
  ∀ b ∈ a.bids, 0 < b.amount

/-- While an auction is active, the denormalized highest-bid cache equals
the amount and bidder of the last accepted bid. -/
def cacheOK (a : Auction) : Prop :=
  a.status = .active →
    a.current_highest_bid = a.bids.getLast?.map Bid.amount ∧
    a.highest_bidder_id = a.bids.getLast?.map Bid.bidder_id

def auctionOK (a : Auction) : Prop :=
  amountsChain a ∧ amountsPos a ∧ cacheOK a

/-- Well-formedness of the auctions table: every row is internally
consistent and no two distinct rows are simultaneously active for the same
flag. -/
def AuctionsOK (l : List Auction) : Prop :=
  (∀ a ∈ l, auctionOK a) ∧
  (∀ i j : Nat, ∀ a b : Auction, l[i]? = some a → l[j]? = some b →
    a.status = .active → b.status = .active → a.flag_id = b.flag_id → i = j)

/-- Invariant carried by every world reachable through the router. -/
def Inv (w : World) : Prop :=
  AuctionsOK w.auctions

/-- Two bids identical except for their bidder. -/
def dupBidA : Bid :=
  { bidder_id := 1, amount := 100, bidder_category := .standard, created_at := 5 }

/-- Same amount, category and created_at as dupBidA, different bidder. -/
def dupBidB : Bid :=
  { bidder_id := 2, amount := 100, bidder_category := .standard, created_at := 5 }

/-- A 42-character wallet for the concrete scenario (seller). -/
def walletA : String := "0xaaaaaaaaaaaaaaaaaaaaaaaaaaaaaaaaaaaaaaaa"

/-- A 42-character wallet for the concrete scenario (bidder / buyer). -/
def walletB : String := "0xbbbbbbbbbbbbbbbbbbbbbbbbbbbbbbbbbbbbbbbb"

/-- Concrete initial world: one flag owned by the one registered user. -/
def w0 : World :=
  { flags := [1], ownerships := [(1, 0)], users := [(walletA, 0)], auctions := [] }

/-- Concrete creation request for the scenario auction. -/
def rawCreate : AuctionCreateRaw :=
  { flag_id := 1, wallet_address := walletA, starting_price := 2,
    min_price := some 3, buyout_price := some 50, duration_hours := 24 }

/-- World after the seller creates the auction at time 0. -/
def w1 : World := (createAuctionApi 0 w0 rawCreate).1

/-- Concrete first bid request. -/
def rawBid1 : BidCreateRaw :=
  { wallet_address := walletB, amount := 5, bidder_category := .premium }

/-- World after the first bid is accepted at time 1. -/
def w2 : World := (placeBidApi 1 w1 0 rawBid1).1

/-- The scenario auction as stored in w1. -/
def a1 : Auction :=
  { flag_id := 1, seller_id := 0, starting_price := 2, min_price := 3,
    buyout_price := some 50, current_highest_bid := none,
    highest_bidder_id := none, winner_category := none,
    status := .active, ends_at := 24, bids := [] }

/-- The scenario bid as stored in w2. -/
def bid1 : Bid :=
  { bidder_id := 1, amount := 5, bidder_category := .premium, created_at := 1 }

/-- The scenario auction as stored in w2. -/
def a2 : Auction :=
  { a1 with bids := [bid1], current_highest_bid := some 5, highest_bidder_id := some 1 }

/-- The scenario auction as stored in w3 (closed at time 30, bid1 wins). -/
def a3 : Auction :=
  { a2 with
    status := .closed
    highest_bidder_id := some 1
    current_highest_bid := some 5
    winner_category := some FlagCategory.premium }

/-- World after closing the scenario auction at time 30. -/
def w3 : World := (close_auction 30 w2 0).1

/-- The world holding the bidder user freshly created by a buyout request
on w1. -/
def wB1 : World := { w1 with users := w1.users ++ [(walletB, 0)] }

/-- The decimal 500000000.00000001: a legal Numeric(18,8) amount whose 17
significant digits exceed what a double can hold. -/
def amtF1 : Rat := mkRat 50000000000000001 100000000

/-- The decimal 500000000.00000002, strictly above amtF1 but rounding to
the same double 500000000.0. -/
def amtF2 : Rat := mkRat 50000000000000002 100000000

/-- A 42-character wallet for the float-collapse scenario (second bidder). -/
def walletC : String := "0xcccccccccccccccccccccccccccccccccccccccc"

/-- Premium bid request of amtF1 on the scenario auction. -/
def rawBidF1 : BidCreateRaw :=
  { wallet_address := walletB, amount := amtF1, bidder_category := .premium }

/-- Standard bid request of amtF2, strictly outbidding amtF1 as a decimal. -/
def rawBidF2 : BidCreateRaw :=
  { wallet_address := walletC, amount := amtF2, bidder_category := .standard }

/-- World after the Premium bid of amtF1 is accepted at time 1. -/
def wf1 : World := (placeBidApi 1 w1 0 rawBidF1).1

/-- World after the Standard bid of amtF2 is accepted at time 2. -/
def wf2 : World := (placeBidApi 2 wf1 0 rawBidF2).1

/-- The first float-collapse bid as stored in wf2. -/
def bidF1 : Bid :=
  { bidder_id := 1, amount := amtF1, bidder_category := .premium, created_at := 1 }

/-- The second float-collapse bid as stored in wf2. -/
def bidF2 : Bid :=
  { bidder_id := 2, amount := amtF2, bidder_category := .standard, created_at := 2 }

/-- The scenario auction as stored in wf2. -/
def af2 : Auction :=
  { a1 with
    bids := [bidF1, bidF2]
    current_highest_bid := some amtF2
    highest_bidder_id := some 2 }

lemma keyLT_irrefl (k : Rat × Int × Int) : ¬ keyLT k k := by
  unfold keyLT
  rintro (h | ⟨-, h | ⟨-, h⟩⟩) <;> exact lt_irrefl _ h

lemma keyLT_trans {k l m : Rat × Int × Int}
    (h1 : keyLT k l) (h2 : keyLT l m) : keyLT k m := by
  unfold keyLT at h1 h2 ⊢
  rcases h1 with h1 | ⟨e1, h1 | ⟨e1', h1⟩⟩ <;>
    rcases h2 with h2 | ⟨e2, h2 | ⟨e2', h2⟩⟩
  · exact Or.inl (lt_trans h1 h2)
  · exact Or.inl (e2 ▸ h1)
  · exact Or.inl (e2 ▸ h1)
  · exact Or.inl (e1 ▸ h2)
  · exact Or.inr ⟨e1.trans e2, Or.inl (lt_trans h1 h2)⟩
  · exact Or.inr ⟨e1.trans e2, Or.inl (e2' ▸ h1)⟩
  · exact Or.inl (e1 ▸ h2)
  · exact Or.inr ⟨e1.trans e2, Or.inl (e1' ▸ h2)⟩
  · exact Or.inr ⟨e1.trans e2, Or.inr ⟨e1'.trans e2', lt_trans h1 h2⟩⟩

lemma keyLT_total (k l : Rat × Int × Int) : keyLT k l ∨ k = l ∨ keyLT l k := by
  obtain ⟨k1, k2, k3⟩ := k
  obtain ⟨l1, l2, l3⟩ := l
  unfold keyLT
  rcases lt_trichotomy k1 l1 with h1 | h1 | h1
  · exact Or.inl (Or.inl h1)
  · rcases lt_trichotomy k2 l2 with h2 | h2 | h2
    · exact Or.inl (Or.inr ⟨h1, Or.inl h2⟩)
    · rcases lt_trichotomy k3 l3 with h3 | h3 | h3
      · exact Or.inl (Or.inr ⟨h1, Or.inr ⟨h2, h3⟩⟩)
      · exact Or.inr (Or.inl (by simp [h1, h2, h3]))
      · exact Or.inr (Or.inr (Or.inr ⟨h1.symm, Or.inr ⟨h2.symm, h3⟩⟩))
    · exact Or.inr (Or.inr (Or.inr ⟨h1.symm, Or.inl h2⟩))
  · exact Or.inr (Or.inr (Or.inl h1))

lemma keyLE_refl (k : Rat × Int × Int) : keyLE k k := Or.inr rfl

lemma keyLE_of_not_lt {k l : Rat × Int × Int} (h : ¬ keyLT k l) : keyLE l k := by
  rcases keyLT_total k l with h' | h' | h'
  · exact absurd h' h
  · exact Or.inr h'.symm
  · exact Or.inl h'

lemma keyLE_trans {k l m : Rat × Int × Int}
    (h1 : keyLE k l) (h2 : keyLE l m) : keyLE k m := by
  rcases h1 with h1 | rfl
  · rcases h2 with h2 | rfl
    · exact Or.inl (keyLT_trans h1 h2)
    · exact Or.inl h1
  · exact h2

lemma keyLE_antisymm {k l : Rat × Int × Int}
    (h1 : keyLE k l) (h2 : keyLE l k) : k = l := by
  rcases h1 with h1 | rfl
  · rcases h2 with h2 | rfl
    · exact absurd (keyLT_trans h1 h2) (keyLT_irrefl k)
    · rfl
  · rfl

lemma keyLT_of_keyLE_of_ne {k l : Rat × Int × Int}
    (h : keyLE k l) (hne : k ≠ l) : keyLT k l := by
  rcases h with h | rfl
  · exact h
  · exact absurd rfl hne

lemma pickWinner_mem (best : Bid) (bs : List Bid) :
    pickWinner best bs = best ∨ pickWinner best bs ∈ bs := by
  induction bs generalizing best with
  | nil => exact Or.inl rfl
  | cons c rest ih =>
    by_cases h : keyLT (bidKey c) (bidKey best)
    · rcases ih c with h' | h'
      · right
        simp [pickWinner, if_pos h, h']
      · right
        simp [pickWinner, if_pos h]
        right
        exact h'
    · rcases ih best with h' | h'
      · left
        simpa [pickWinner, if_neg h] using h'
      · right
        simp [pickWinner, if_neg h]
        right
        exact h'

lemma pickWinner_le_best (best : Bid) (bs : List Bid) :
    keyLE (bidKey (pickWinner best bs)) (bidKey best) := by
  induction bs generalizing best with
  | nil => exact keyLE_refl _
  | cons c rest ih =>
    by_cases h : keyLT (bidKey c) (bidKey best)
    · have h1 := ih c
      have : keyLE (bidKey c) (bidKey best) := Or.inl h
      simpa [pickWinner, if_pos h] using keyLE_trans h1 this
    · simpa [pickWinner, if_neg h] using ih best

lemma pickWinner_le_mem (best : Bid) (bs : List Bid) :
    ∀ b ∈ bs, keyLE (bidKey (pickWinner best bs)) (bidKey b) := by
  induction bs generalizing best with
  | nil => intro b hb; cases hb
  | cons c rest ih =>
    intro b hb
    rcases List.mem_cons.mp hb with hbc | hb
    · subst hbc
      by_cases h : keyLT (bidKey b) (bidKey best)
      · simpa [pickWinner, if_pos h] using pickWinner_le_best b rest
      · have h1 : keyLE (bidKey best) (bidKey b) := keyLE_of_not_lt h
        have h2 := pickWinner_le_best best rest
        simpa [pickWinner, if_neg h] using keyLE_trans h2 h1
    · by_cases h : keyLT (bidKey c) (bidKey best)
      · simpa [pickWinner, if_pos h] using ih c b hb
      · simpa [pickWinner, if_neg h] using ih best b hb

/-- determine_winner on a non-empty list returns a member whose key is
minimal, i.e. a bid maximal under the composite winning order. -/
lemma determine_winner_min (bids : List Bid) (h : bids ≠ []) :
    ∃ w, determine_winner bids = some w ∧ w ∈ bids ∧
      ∀ b ∈ bids, keyLE (bidKey w) (bidKey b) := by
  cases bids with
  | nil => exact absurd rfl h
  | cons b bs =>
    refine ⟨pickWinner b bs, rfl, ?_, ?_⟩
    · rcases pickWinner_mem b bs with h' | h'
      · simp [h']
      · simp [h']
    · intro x hx
      rcases List.mem_cons.mp hx with hxb | hx
      · subst hxb
        exact pickWinner_le_best x bs
      · exact pickWinner_le_mem b bs x hx

/-- If some member's key is strictly below every other member's key, then
determine_winner returns exactly that member. -/
lemma determine_winner_unique (bids : List Bid) (w : Bid) (hw : w ∈ bids)
    (hmin : ∀ b ∈ bids, b ≠ w → keyLT (bidKey w) (bidKey b)) :
    determine_winner bids = some w := by
  have hne : bids ≠ [] := by
    intro h
    rw [h] at hw
    cases hw
  obtain ⟨v, hv, hvmem, hvmin⟩ := determine_winner_min bids hne
  by_cases hvw : v = w
  · exact hvw ▸ hv
  · have h1 : keyLT (bidKey w) (bidKey v) := hmin v hvmem hvw
    have h2 : keyLE (bidKey v) (bidKey w) := hvmin w hw
    rcases h2 with h2 | h2
    · exact absurd (keyLT_trans h1 h2) (keyLT_irrefl _)
    · rw [h2] at h1
      exact absurd h1 (keyLT_irrefl _)

lemma getElem?_concat_cases {α : Type} {l : List α} {a x : α} {i : Nat}
    (h : (l ++ [a])[i]? = some x) :
    (i < l.length ∧ l[i]? = some x) ∨ (i = l.length ∧ x = a) := by
  by_cases hi : i < l.length
  · exact Or.inl ⟨hi, by rwa [List.getElem?_append_left hi] at h⟩
  · right
    rw [List.getElem?_append, if_neg hi] at h
    rcases hk : i - l.length with _ | k
    · rw [hk] at h
      simp only [List.getElem?_cons_zero, Option.some.injEq] at h
      have h1 : i ≤ l.length := Nat.le_of_sub_eq_zero hk
      have h2 : l.length ≤ i := Nat.le_of_not_lt hi
      exact ⟨Nat.le_antisymm h1 h2, h.symm⟩
    · rw [hk] at h
      simp at h

lemma getElem?_set_cases {α : Type} {l : List α} {a x : α} {k i : Nat}
    (hk : k < l.length) (h : (l.set k a)[i]? = some x) :
    (i = k ∧ x = a) ∨ (i ≠ k ∧ l[i]? = some x) := by
  by_cases hik : i = k
  · subst hik
    rw [List.getElem?_set_eq_of_lt a hk] at h
    exact Or.inl ⟨rfl, (Option.some.injEq _ _ ▸ h).symm⟩
  · right
    refine ⟨hik, ?_⟩
    rwa [List.getElem?_set_ne (fun h' => hik h'.symm)] at h

/-- Appending a fresh auction whose flag has no other active auction
preserves table well-formedness. -/
lemma auctionsOK_append {l : List Auction} {a : Auction}
    (hl : AuctionsOK l) (ha : auctionOK a)
    (hnew : ∀ b ∈ l, b.status = .active → b.flag_id ≠ a.flag_id) :
    AuctionsOK (l ++ [a]) := by
  constructor
  · intro x hx
    rcases List.mem_append.mp hx with hx | hx
    · exact hl.1 x hx
    · rw [List.mem_singleton.mp hx]
      exact ha
  · intro i j x y hi hj hx hy hfl
    rcases getElem?_concat_cases hi with ⟨hi1, hi2⟩ | ⟨hi1, hi2⟩ <;>
      rcases getElem?_concat_cases hj with ⟨hj1, hj2⟩ | ⟨hj1, hj2⟩
    · exact hl.2 i j x y hi2 hj2 hx hy hfl
    · subst hj2
      exact absurd hfl (hnew x (List.getElem?_mem hi2) hx)
    · subst hi2
      exact absurd hfl.symm (hnew y (List.getElem?_mem hj2) hy)
    · rw [hi1, hj1]

/-- Replacing a row by an update that keeps its flag, only keeps it active
if it already was, and is itself well-formed preserves table
well-formedness. -/
lemma auctionsOK_set {l : List Auction} {k : Nat} {a a' : Auction}
    (hl : AuctionsOK l) (hk : l[k]? = some a) (ha' : auctionOK a')
    (hflag : a'.flag_id = a.flag_id)
    (hstat : a'.status = .active → a.status = .active) :
    AuctionsOK (l.set k a') := by
  have hklen : k < l.length := by
    rcases List.getElem?_eq_some.mp hk with ⟨h, -⟩
    exact h
  constructor
  · intro x hx
    rcases List.mem_or_eq_of_mem_set hx with hx | hx
    · exact hl.1 x hx
    · rw [hx]
      exact ha'
  · intro i j x y hi hj hx hy hfl
    rcases getElem?_set_cases hklen hi with ⟨hi1, hi2⟩ | ⟨hi1, hi2⟩ <;>
      rcases getElem?_set_cases hklen hj with ⟨hj1, hj2⟩ | ⟨hj1, hj2⟩
    · rw [hi1, hj1]
    · subst hi2
      subst hi1
      refine absurd (hl.2 j i y a hj2 hk hy (hstat hx) ?_) hj1
      rw [← hfl, hflag]
    · subst hj2
      subst hj1
      refine absurd (hl.2 i j x a hi2 hk hx (hstat hy) ?_) hi1
      rw [hfl, hflag]
    · exact hl.2 i j x y hi2 hj2 hx hy hfl

lemma get_or_create_user_auctions (w : World) (s : String) :
    (get_or_create_user w s).1.auctions = w.auctions := by
  unfold get_or_create_user
  rcases h : findUserIdx w.users (pyLower s) with _ | i <;> simp [h]

lemma validateBidCreate_pos {r : BidCreateRaw} {d : BidCreate}
    (h : validateBidCreate r = some d) : 0 < d.amount := by
  unfold validateBidCreate at h
  split_ifs at h with hc
  · simp only [Bool.and_eq_true, decide_eq_true_eq] at hc
    cases h
    exact hc.2

/-- create_auction preserves the table invariant: the new auction starts
with an empty, trivially consistent bid list, and the duplicate-active check
guarantees flag uniqueness. -/
lemma inv_create (now : Int) (w : World) (d : AuctionCreate) (hw : Inv w) :
    Inv (create_auction now w d).1 := by
  unfold create_auction
  by_cases hf : d.flag_id ∈ w.flags
  · rw [if_pos hf]
    have hau : (get_or_create_user w d.wallet_address).1.auctions = w.auctions :=
      get_or_create_user_auctions w d.wallet_address
    by_cases ho : (d.flag_id, (get_or_create_user w d.wallet_address).2) ∈
        (get_or_create_user w d.wallet_address).1.ownerships
    · rw [if_pos ho]
      by_cases ha : (get_or_create_user w d.wallet_address).1.auctions.any
          (fun a => decide (a.flag_id = d.flag_id ∧ a.status = .active)) = true
      · rw [if_pos ha]
        show AuctionsOK (get_or_create_user w d.wallet_address).1.auctions
        rw [hau]
        exact hw
      · rw [if_neg ha]
        show AuctionsOK ((get_or_create_user w d.wallet_address).1.auctions ++ [_])
        rw [hau]
        rw [Bool.not_eq_true] at ha
        simp only [List.any_eq_false, decide_eq_true_eq, not_and] at ha
        refine auctionsOK_append hw ?_ ?_
        · refine ⟨?_, ?_, ?_⟩
          · simp [amountsChain]
          · intro b hb
            cases hb
          · intro _
            simp
        · intro b hb hbact
          rw [hau] at ha
          exact fun hfl => (ha b hb hfl) hbact
    · rw [if_neg ho]
      show AuctionsOK (get_or_create_user w d.wallet_address).1.auctions
      rw [hau]
      exact hw
  · rw [if_neg hf]
    exact hw

/-- place_bid preserves the table invariant: a bid is accepted only above
the cached highest bid, which by the cache consistency part of the
invariant is the amount of the last stored bid. -/
lemma inv_place_bid (now : Int) (w : World) (aid : Nat) (d : BidCreate)
    (hw : Inv w) (hpos : 0 < d.amount) :
    Inv (place_bid now w aid d).1 := by
  unfold place_bid
  cases hk : w.auctions[aid]? with
  | none => exact hw
  | some a =>
    dsimp only
    by_cases hs : a.status ≠ .active
    · rw [if_pos hs]
      exact hw
    · rw [if_neg hs]
      have hact : a.status = .active := not_not.mp hs
      by_cases he : a.ends_at < now
      · rw [if_pos he]
        exact hw
      · rw [if_neg he]
        have hau : (get_or_create_user w d.wallet_address).1.auctions = w.auctions :=
          get_or_create_user_auctions w d.wallet_address
        by_cases hself : (get_or_create_user w d.wallet_address).2 = a.seller_id
        · rw [if_pos hself]
          show AuctionsOK (get_or_create_user w d.wallet_address).1.auctions
          rw [hau]
          exact hw
        · rw [if_neg hself]
          by_cases hmin : d.amount < a.min_price
          · rw [if_pos hmin]
            show AuctionsOK (get_or_create_user w d.wallet_address).1.auctions
            rw [hau]
            exact hw
          · rw [if_neg hmin]
            by_cases hblk : highestBlocks a.current_highest_bid d.amount = true
            · rw [if_pos hblk]
              show AuctionsOK (get_or_create_user w d.wallet_address).1.auctions
              rw [hau]
              exact hw
            · rw [if_neg hblk]
              by_cases hst : d.amount < a.starting_price
              · rw [if_pos hst]
                show AuctionsOK (get_or_create_user w d.wallet_address).1.auctions
                rw [hau]
                exact hw
              · rw [if_neg hst]
                show AuctionsOK ((get_or_create_user w d.wallet_address).1.auctions.set aid _)
                rw [hau]
                have hOK := hw.1 a (List.getElem?_mem hk)
                have hcache := hOK.2.2 hact
                refine auctionsOK_set hw hk ⟨?_, ?_, ?_⟩ rfl (fun h => hact)
                · show List.Chain' _ (a.bids ++ [_])
                  refine List.chain'_append.mpr ⟨hOK.1, by simp, ?_⟩
                  intro x hx y hy
                  simp only [List.head?_cons, Option.mem_def, Option.some.injEq] at hy
                  subst hy
                  show x.amount < d.amount
                  have hcur : a.current_highest_bid = some x.amount := by
                    rw [hcache.1, hx]
                    rfl
                  have hxpos : 0 < x.amount :=
                    hOK.2.1 x (List.mem_of_mem_getLast? hx)
                  unfold highestBlocks at hblk
                  rw [hcur] at hblk
                  simp only [Bool.and_eq_true, decide_eq_true_eq, not_and, not_le] at hblk
                  exact hblk (ne_of_gt hxpos)
                · intro b hb
                  rcases List.mem_append.mp hb with hb | hb
                  · exact hOK.2.1 b hb
                  · rw [List.mem_singleton.mp hb]
                    exact hpos
                · intro _
                  constructor
                  · show some d.amount = ((a.bids ++ [_]).getLast?).map Bid.amount
                    rw [List.getLast?_concat]
                    rfl
                  · show some (get_or_create_user w d.wallet_address).2 =
                      ((a.bids ++ [_]).getLast?).map Bid.bidder_id
                    rw [List.getLast?_concat]
                    rfl

/-- buyout_auction preserves the table invariant: the updated row is closed
and keeps its bid list. -/
lemma inv_buyout (now : Int) (w : World) (aid : Nat) (d : BuyoutCreate)
    (hw : Inv w) : Inv (buyout_auction now w aid d).1 := by
  unfold buyout_auction
  cases hk : w.auctions[aid]? with
  | none => exact hw
  | some a =>
    dsimp only
    by_cases hs : a.status ≠ .active
    · rw [if_pos hs]
      exact hw
    · rw [if_neg hs]
      cases hbp : a.buyout_price with
      | none => exact hw
      | some bp =>
        dsimp only
        by_cases he : a.ends_at < now
        · rw [if_pos he]
          exact hw
        · rw [if_neg he]
          have hau : (get_or_create_user w d.wallet_address).1.auctions = w.auctions :=
            get_or_create_user_auctions w d.wallet_address
          by_cases hself : (get_or_create_user w d.wallet_address).2 = a.seller_id
          · rw [if_pos hself]
            show AuctionsOK (get_or_create_user w d.wallet_address).1.auctions
            rw [hau]
            exact hw
          · rw [if_neg hself]
            show AuctionsOK ((get_or_create_user w d.wallet_address).1.auctions.set aid _)
            rw [hau]
            have hOK := hw.1 a (List.getElem?_mem hk)
            refine auctionsOK_set hw hk ⟨hOK.1, hOK.2.1, ?_⟩ rfl ?_
            · intro h
              exact AuctionStatus.noConfusion h
            · intro h
              exact AuctionStatus.noConfusion h

/-- close_auction preserves the table invariant: both settlement branches
close the row and keep its bid list. -/
lemma inv_close (now : Int) (w : World) (aid : Nat) (hw : Inv w) :
    Inv (close_auction now w aid).1 := by
  unfold close_auction
  cases hk : w.auctions[aid]? with
  | none => exact hw
  | some a =>
    dsimp only
    by_cases hs : a.status ≠ .active
    · rw [if_pos hs]
      exact hw
    · rw [if_neg hs]
      by_cases he : now < a.ends_at
      · rw [if_pos he]
        exact hw
      · rw [if_neg he]
        have hOK := hw.1 a (List.getElem?_mem hk)
        cases hwb : determine_winner a.bids with
        | some wb =>
          show AuctionsOK (w.auctions.set aid _)
          refine auctionsOK_set hw hk ⟨hOK.1, hOK.2.1, ?_⟩ rfl ?_
          · intro h
            exact AuctionStatus.noConfusion h
          · intro h
            exact AuctionStatus.noConfusion h
        | none =>
          show AuctionsOK (w.auctions.set aid _)
          refine auctionsOK_set hw hk ⟨hOK.1, hOK.2.1, ?_⟩ rfl ?_
          · intro h
            exact AuctionStatus.noConfusion h
          · intro h
            exact AuctionStatus.noConfusion h

/-- cancel_auction preserves the table invariant. -/
lemma inv_cancel (w : World) (aid : Nat) (s : String) (hw : Inv w) :
    Inv (cancel_auction w aid s).1 := by
  unfold cancel_auction
  cases hk : w.auctions[aid]? with
  | none => exact hw
  | some a =>
    cases hu : findUserIdx w.users (pyLower s) with
    | none => exact hw
    | some uid =>
      dsimp only
      by_cases hsel : uid ≠ a.seller_id
      · rw [if_pos hsel]
        exact hw
      · rw [if_neg hsel]
        by_cases hs : a.status ≠ .active
        · rw [if_pos hs]
          exact hw
        · rw [if_neg hs]
          by_cases hb : a.current_highest_bid.isSome = true
          · rw [if_pos hb]
            exact hw
          · rw [if_neg hb]
            show AuctionsOK (w.auctions.set aid _)
            have hOK := hw.1 a (List.getElem?_mem hk)
            refine auctionsOK_set hw hk ⟨hOK.1, hOK.2.1, ?_⟩ rfl ?_
            · intro h
              exact AuctionStatus.noConfusion h
            · intro h
              exact AuctionStatus.noConfusion h

/-- Every router transition preserves the invariant. -/
lemma inv_step {w w' : World} (hw : Inv w) (s : Step w w') : Inv w' := by
  cases s with
  | createA now r =>
    unfold createAuctionApi
    cases hv : validateAuctionCreate r with
    | none => exact hw
    | some d => exact inv_create now w d hw
  | placeB now aid r =>
    unfold placeBidApi
    cases hv : validateBidCreate r with
    | none => exact hw
    | some d => exact inv_place_bid now w aid d hw (validateBidCreate_pos hv)
  | buyoutA now aid r =>
    unfold buyoutApi
    cases hv : validateBuyoutCreate r with
    | none => exact hw
    | some d => exact inv_buyout now w aid d hw
  | closeA now aid => exact inv_close now w aid hw
  | cancelA aid wa => exact inv_cancel w aid wa hw

/-- The invariant holds in every reachable world. -/
lemma inv_reachable {w : World} (h : Reachable w) : Inv w := by
  induction h with
  | init w hw0 =>
    unfold Inv AuctionsOK
    rw [hw0]
    constructor
    · intro a ha
      cases ha
    · intro i j a b hi hj
      simp at hi
  | step h s ih => exact inv_step ih s

/-- C1 (amended): for every non-empty list of bids, determine_winner
selects a bid of the list maximal under the composite order the program
actually sorts by — highest float64-rounded amount first, then higher
category priority, then earlier created_at (i.e. minimal sort key); this is
highest-exact-amount-first only as far as the float images of the amounts
are distinct, which 17-digit Numeric(18,8) amounts can violate (see the
counterexample).  In particular on bids (100, Standard, t1) and
(100, Premium, t2) with t2 > t1, the Premium bid wins. -/
theorem winner_maximal_composite_order :
    (∀ (bids : List Bid), bids ≠ [] →
      ∃ w, determine_winner bids = some w ∧ w ∈ bids ∧
        ∀ b ∈ bids, keyLE (bidKey w) (bidKey b)) ∧
    (∀ t1 t2 : Int, t1 < t2 →
      determine_winner
        [{ bidder_id := 1, amount := 100, bidder_category := .standard, created_at := t1 },
         { bidder_id := 2, amount := 100, bidder_category := .premium, created_at := t2 }] =
      some { bidder_id := 2, amount := 100, bidder_category := .premium, created_at := t2 }) := by
  constructor
  · exact determine_winner_min
  · intro t1 t2 ht
    have hlt : keyLT
        (bidKey { bidder_id := 2, amount := 100, bidder_category := .premium, created_at := t2 })
        (bidKey { bidder_id := 1, amount := 100, bidder_category := .standard, created_at := t1 }) :=
      Or.inr ⟨rfl, Or.inl (by norm_num [bidKey, CATEGORY_PRIORITY])⟩
    simp [determine_winner, pickWinner, hlt]

/-- Witness for C1: both conjuncts instantiated at concrete bids. -/
theorem winner_maximal_composite_order_witness :
    (∃ w, determine_winner
        [{ bidder_id := 1, amount := 5, bidder_category := FlagCategory.standard, created_at := 0 }] = some w ∧
      w ∈ [{ bidder_id := 1, amount := 5, bidder_category := FlagCategory.standard, created_at := 0 }] ∧
      ∀ b ∈ [{ bidder_id := 1, amount := 5, bidder_category := FlagCategory.standard, created_at := 0 }],
        keyLE (bidKey w) (bidKey b)) ∧
    determine_winner
        [{ bidder_id := 1, amount := 100, bidder_category := .standard, created_at := 0 },
         { bidder_id := 2, amount := 100, bidder_category := .premium, created_at := 1 }] =
      some { bidder_id := 2, amount := 100, bidder_category := .premium, created_at := 1 } :=
  ⟨winner_maximal_composite_order.1 _ (by simp),
   winner_maximal_composite_order.2 0 1 (by decide)⟩

/-- C2 counterexample: two bids that agree on amount, category and
created_at but come from different bidders tie on the whole sort key, and
the stable sort keeps the first one, so permuting the input list changes
the returned winner. -/
theorem winner_not_permutation_invariant :
    [dupBidA, dupBidB].Perm [dupBidB, dupBidA] ∧
    determine_winner [dupBidA, dupBidB] = some dupBidA ∧
    determine_winner [dupBidB, dupBidA] = some dupBidB ∧
    dupBidA ≠ dupBidB := by
  refine ⟨List.Perm.swap dupBidB dupBidA [], by decide, by decide, by decide⟩

/-- C2 amended: winner determination is permutation-invariant on bid lists
whose created_at values are pairwise distinct (which holds per auction,
created_at being its monotonic ordering key). -/
theorem winner_permutation_invariant (l l' : List Bid)
    (hp : l.Perm l') (hnd : (l.map Bid.created_at).Nodup) :
    determine_winner l = determine_winner l' := by
  by_cases hne : l = []
  · subst hne
    cases l' with
    | nil => rfl
    | cons x xs => exact absurd hp.length_eq (by simp)
  · have hne' : l' ≠ [] := by
      intro h
      subst h
      exact hne (List.length_eq_zero.mp (by simpa using hp.length_eq))
    obtain ⟨v, hv, hvmem, hvmin⟩ := determine_winner_min l hne
    obtain ⟨v', hv', hvmem', hvmin'⟩ := determine_winner_min l' hne'
    have hv'l : v' ∈ l := hp.mem_iff.mpr hvmem'
    have hvl' : v ∈ l' := hp.mem_iff.mp hvmem
    have hkey : bidKey v = bidKey v' :=
      keyLE_antisymm (hvmin v' hv'l) (hvmin' v hvl')
    have hct : v.created_at = v'.created_at := congrArg (fun k => k.2.2) hkey
    have hvv : v = v' := List.inj_on_of_nodup_map hnd hvmem hv'l hct
    rw [hv, hv', hvv]

/-- Witness for the amended C2 at a concrete two-bid swap. -/
theorem winner_permutation_invariant_witness :
    determine_winner
        [{ bidder_id := 1, amount := 7, bidder_category := FlagCategory.plus, created_at := 0 },
         { bidder_id := 2, amount := 7, bidder_category := FlagCategory.plus, created_at := 1 }] =
      determine_winner
        [{ bidder_id := 2, amount := 7, bidder_category := FlagCategory.plus, created_at := 1 },
         { bidder_id := 1, amount := 7, bidder_category := FlagCategory.plus, created_at := 0 }] :=
  winner_permutation_invariant _ _ (List.Perm.swap _ _ []) (by decide)

/-- C9: the AuctionCreate validator rejects any request whose buyout price
does not strictly exceed the starting price — in particular one with
buyout_price = starting_price — and a rejected request never reaches the
handler, so no auction is created. -/
theorem buyout_must_exceed_starting :
    (∀ r : AuctionCreateRaw, r.buyout_price = some r.starting_price →
      validateAuctionCreate r = none) ∧
    (∀ (r : AuctionCreateRaw) (d : AuctionCreate), validateAuctionCreate r = some d →
      ∀ bp, d.buyout_price = some bp → d.starting_price < bp) ∧
    (∀ (now : Int) (w : World) (r : AuctionCreateRaw), validateAuctionCreate r = none →
      createAuctionApi now w r = (w, Except.error ApiError.validationFailed)) := by
  refine ⟨?_, ?_, ?_⟩
  · intro r hr
    simp [validateAuctionCreate, hr, buyoutGtStarting]
  · intro r d hd bp hbp
    unfold validateAuctionCreate at hd
    split_ifs at hd with hc
    · cases hd
      simp only [Bool.and_eq_true] at hc
      have hbg := hc.1.1.2
      dsimp only at hbp ⊢
      rw [hbp] at hbg
      unfold buyoutGtStarting at hbg
      simpa using hbg
  · intro now w r hv
    simp [createAuctionApi, hv]

/-- Witness for C9: a concrete request with starting_price = buyout_price
= 1 is rejected and creates nothing. -/
theorem buyout_must_exceed_starting_witness :
    validateAuctionCreate
        { flag_id := 1, wallet_address := "0xaaaaaaaaaaaaaaaaaaaaaaaaaaaaaaaaaaaaaaaa",
          starting_price := 1, min_price := none, buyout_price := some 1,
          duration_hours := 24 } = none ∧
    createAuctionApi 0 { flags := [1], ownerships := [], users := [], auctions := [] }
        { flag_id := 1, wallet_address := "0xaaaaaaaaaaaaaaaaaaaaaaaaaaaaaaaaaaaaaaaa",
          starting_price := 1, min_price := none, buyout_price := some 1,
          duration_hours := 24 } =
      ({ flags := [1], ownerships := [], users := [], auctions := [] },
        Except.error ApiError.validationFailed) := by
  have h1 := buyout_must_exceed_starting.1
    { flag_id := 1, wallet_address := "0xaaaaaaaaaaaaaaaaaaaaaaaaaaaaaaaaaaaaaaaa",
      starting_price := 1, min_price := none, buyout_price := some 1,
      duration_hours := 24 } rfl
  exact ⟨h1, buyout_must_exceed_starting.2.2 0 _ _ h1⟩

/-- In a reachable world, the cached highest bid of an active auction is
positive (it is the amount of the last accepted bid, and accepted amounts
are positive). -/
lemma current_pos_of_reachable {w : World} {aid : Nat} {a : Auction} {c : Rat}
    (hr : Reachable w) (hk : w.auctions[aid]? = some a)
    (hact : a.status = .active) (hc : a.current_highest_bid = some c) :
    0 < c := by
  have hOK := (inv_reachable hr).1 a (List.getElem?_mem hk)
  have hcache := (hOK.2.2 hact).1
  rw [hc] at hcache
  cases hlast : a.bids.getLast? with
  | none =>
    rw [hlast] at hcache
    simp at hcache
  | some x =>
    rw [hlast] at hcache
    simp only [Option.map_some', Option.some.injEq] at hcache
    rw [hcache]
    exact hOK.2.1 x (List.mem_of_mem_getLast? hlast)

lemma highestBlocks_true {c amt : Rat} (hc0 : c ≠ 0) (hle : amt ≤ c) :
    highestBlocks (some c) amt = true := by
  simp [highestBlocks, hc0, hle]

lemma lt_of_not_highestBlocks {c amt : Rat} (hc0 : c ≠ 0)
    (h : ¬ highestBlocks (some c) amt = true) : c < amt := by
  simp only [highestBlocks, Bool.and_eq_true, decide_eq_true_eq, not_and, not_le] at h
  exact h hc0

/-- C3: in every reachable world the stored bid amounts of every auction are
strictly increasing in acceptance (= created_at) order; place_bid succeeds
only for amounts meeting min_price and starting_price and strictly
exceeding the cached highest bid, and then appends the bid while atomically
refreshing the cache; a non-increasing amount is rejected by the dedicated
400 too-low-bid error (the InvalidArgument class). -/
theorem bids_strictly_increasing :
    (∀ w, Reachable w → ∀ (aid : Nat) (a : Auction), w.auctions[aid]? = some a →
      List.Chain' (fun b c : Bid => b.amount < c.amount) a.bids) ∧
    (∀ (now : Int) (w : World) (aid : Nat) (d : BidCreate) (a : Auction)
        (w' : World) (bid : Bid), Reachable w → w.auctions[aid]? = some a →
      place_bid now w aid d = (w', Except.ok bid) →
      a.min_price ≤ d.amount ∧ a.starting_price ≤ d.amount ∧
      (∀ c, a.current_highest_bid = some c → c < d.amount) ∧
      bid.amount = d.amount ∧
      w'.auctions[aid]? = some { a with
        bids := a.bids ++ [bid]
        current_highest_bid := some d.amount
        highest_bidder_id := some bid.bidder_id }) ∧
    (∀ (now : Int) (w : World) (aid : Nat) (d : BidCreate) (a : Auction) (c : Rat),
      Reachable w → w.auctions[aid]? = some a →
      a.status = .active → ¬ a.ends_at < now →
      (get_or_create_user w d.wallet_address).2 ≠ a.seller_id →
      ¬ d.amount < a.min_price → a.current_highest_bid = some c → d.amount ≤ c →
      (place_bid now w aid d).2 = Except.error ApiError.notAboveHighest ∧
      httpStatus ApiError.notAboveHighest = 400) := by
  refine ⟨?_, ?_, ?_⟩
  · intro w hr aid a hk
    exact ((inv_reachable hr).1 a (List.getElem?_mem hk)).1
  · intro now w aid d a w' bid hr hk hpb
    unfold place_bid at hpb
    rw [hk] at hpb
    dsimp only at hpb
    by_cases hs : a.status ≠ .active
    · rw [if_pos hs] at hpb
      exact absurd (congrArg Prod.snd hpb) (fun h => Except.noConfusion h)
    · rw [if_neg hs] at hpb
      have hact : a.status = .active := not_not.mp hs
      by_cases he : a.ends_at < now
      · rw [if_pos he] at hpb
        exact absurd (congrArg Prod.snd hpb) (fun h => Except.noConfusion h)
      · rw [if_neg he] at hpb
        have hau : (get_or_create_user w d.wallet_address).1.auctions = w.auctions :=
          get_or_create_user_auctions w d.wallet_address
        by_cases hself : (get_or_create_user w d.wallet_address).2 = a.seller_id
        · rw [if_pos hself] at hpb
          exact absurd (congrArg Prod.snd hpb) (fun h => Except.noConfusion h)
        · rw [if_neg hself] at hpb
          by_cases hmin : d.amount < a.min_price
          · rw [if_pos hmin] at hpb
            exact absurd (congrArg Prod.snd hpb) (fun h => Except.noConfusion h)
          · rw [if_neg hmin] at hpb
            by_cases hblk : highestBlocks a.current_highest_bid d.amount = true
            · rw [if_pos hblk] at hpb
              exact absurd (congrArg Prod.snd hpb) (fun h => Except.noConfusion h)
            · rw [if_neg hblk] at hpb
              by_cases hst : d.amount < a.starting_price
              · rw [if_pos hst] at hpb
                exact absurd (congrArg Prod.snd hpb) (fun h => Except.noConfusion h)
              · rw [if_neg hst] at hpb
                injection hpb with h1 h2
                injection h2 with h3
                subst h1
                subst h3
                refine ⟨not_lt.mp hmin, not_lt.mp hst, ?_, rfl, ?_⟩
                · intro c hc
                  have hcpos := current_pos_of_reachable hr hk hact hc
                  rw [hc] at hblk
                  exact lt_of_not_highestBlocks (ne_of_gt hcpos) hblk
                · show ((get_or_create_user w d.wallet_address).1.auctions.set aid _)[aid]? = _
                  rw [hau]
                  have hlen : aid < w.auctions.length := by
                    rcases List.getElem?_eq_some.mp hk with ⟨h, -⟩
                    exact h
                  rw [List.getElem?_set_eq_of_lt _ hlen]
  · intro now w aid d a c hr hk hact he hself hmin hc hle
    have hcpos := current_pos_of_reachable hr hk hact hc
    have hblk : highestBlocks a.current_highest_bid d.amount = true := by
      rw [hc]
      exact highestBlocks_true (ne_of_gt hcpos) hle
    unfold place_bid
    rw [hk]
    dsimp only
    rw [if_neg (not_ne_iff.mpr hact), if_neg he, if_neg hself, if_neg hmin, if_pos hblk]
    exact ⟨rfl, rfl⟩

lemma reach_w1 : Reachable w1 :=
  Reachable.step (Reachable.init w0 rfl) (Step.createA w0 0 rawCreate)

lemma reach_w2 : Reachable w2 :=
  Reachable.step reach_w1 (Step.placeB w1 1 0 rawBid1)

/-- Witness for C3: the three conjuncts applied in the concrete scenario
(accepted bid list of w2; the successful bid from w1 to w2; a rejected
non-increasing rebid of 4 against the cached highest bid 5). -/
theorem bids_strictly_increasing_witness :
    List.Chain' (fun b c : Bid => b.amount < c.amount) a2.bids ∧
    (a1.min_price ≤ (5 : Rat) ∧ a1.starting_price ≤ (5 : Rat) ∧
      (∀ c, a1.current_highest_bid = some c → c < (5 : Rat)) ∧
      bid1.amount = (5 : Rat) ∧
      w2.auctions[0]? = some { a1 with
        bids := a1.bids ++ [bid1]
        current_highest_bid := some (5 : Rat)
        highest_bidder_id := some bid1.bidder_id }) ∧
    ((place_bid 2 w2 0 { wallet_address := walletB, amount := 4, bidder_category := .standard }).2 =
        Except.error ApiError.notAboveHighest ∧
      httpStatus ApiError.notAboveHighest = 400) := by
  refine ⟨?_, ?_, ?_⟩
  · exact bids_strictly_increasing.1 w2 reach_w2 0 a2 (by decide)
  · exact bids_strictly_increasing.2.1 1 w1 0
      { wallet_address := walletB, amount := 5, bidder_category := .premium }
      a1 w2 bid1 reach_w1 (by decide) (by decide)
  · exact bids_strictly_increasing.2.2 2 w2 0
      { wallet_address := walletB, amount := 4, bidder_category := .standard }
      a2 5 reach_w2 (by decide) (by decide) (by decide) (by decide) (by decide)
      (by decide) (by decide)

lemma get_or_create_user_ownerships (w : World) (s : String) :
    (get_or_create_user w s).1.ownerships = w.ownerships := by
  unfold get_or_create_user
  rcases h : findUserIdx w.users (pyLower s) with _ | i <;> simp [h]

/-- C4: every reachable world has at most one active auction per flag, and
create_auction fails with the duplicate-active-auction conflict error (HTTP
400) without touching the auctions table whenever an active auction for the
flag already exists; the remaining operations never turn a non-active
auction active, so the invariant is preserved by every step. -/
theorem at_most_one_active_per_flag :
    (∀ w, Reachable w → ∀ (i j : Nat) (a b : Auction),
      w.auctions[i]? = some a → w.auctions[j]? = some b →
      a.status = .active → b.status = .active → a.flag_id = b.flag_id → i = j) ∧
    (∀ (now : Int) (w : World) (d : AuctionCreate) (i : Nat) (a : Auction),
      w.auctions[i]? = some a → a.flag_id = d.flag_id → a.status = .active →
      d.flag_id ∈ w.flags →
      (d.flag_id, (get_or_create_user w d.wallet_address).2) ∈ w.ownerships →
      create_auction now w d =
        ((get_or_create_user w d.wallet_address).1, Except.error ApiError.activeExists) ∧
      (get_or_create_user w d.wallet_address).1.auctions = w.auctions ∧
      httpStatus ApiError.activeExists = 400) := by
  constructor
  · intro w hr
    exact (inv_reachable hr).2
  · intro now w d i a hi hflag hact hf ho
    have hau : (get_or_create_user w d.wallet_address).1.auctions = w.auctions :=
      get_or_create_user_auctions w d.wallet_address
    have how : (get_or_create_user w d.wallet_address).1.ownerships = w.ownerships :=
      get_or_create_user_ownerships w d.wallet_address
    refine ⟨?_, hau, rfl⟩
    unfold create_auction
    rw [if_pos hf, if_pos (how ▸ ho), if_pos ?_]
    rw [List.any_eq_true]
    refine ⟨a, ?_, by simp [hflag, hact]⟩
    rw [hau]
    exact List.getElem?_mem hi

/-- Witness for C4: the invariant instantiated at the reachable world w1,
and a second creation attempt for flag 1 rejected while auction 0 is still
active. -/
theorem at_most_one_active_per_flag_witness :
    (0 : Nat) = 0 ∧
    create_auction 3 w1
        { flag_id := 1, wallet_address := walletA, starting_price := 2,
          min_price := 3, buyout_price := some 50, duration_hours := 24 } =
      ((get_or_create_user w1 walletA).1, Except.error ApiError.activeExists) := by
  constructor
  · exact at_most_one_active_per_flag.1 w1 reach_w1 0 0 a1 a1
      (by decide) (by decide) rfl rfl rfl
  · exact (at_most_one_active_per_flag.2 3 w1
      { flag_id := 1, wallet_address := walletA, starting_price := 2,
        min_price := 3, buyout_price := some 50, duration_hours := 24 }
      0 a1 (by decide) (by decide) rfl (by decide) (by decide)).1

/-- C10 (amended): in every reachable world, for every active auction
holding at least one bid whose amounts are still strictly increasing after
rounding to float64 (automatic whenever the amounts' float images are
distinct, e.g. at everyday magnitudes), determine_winner over the full bid
list returns exactly the last accepted bid, whose amount and bidder are the
cached current_highest_bid and highest_bidder_id: the incremental cache and
full-list winner determination agree at close time.  Without that proviso
the float conversion in the sort key can collapse consecutive amounts and
let the category tie-break pick an earlier bid (see the counterexample). -/
theorem cache_agrees_with_winner :
    ∀ w, Reachable w → ∀ (aid : Nat) (a : Auction), w.auctions[aid]? = some a →
      a.status = .active →
      List.Chain' (fun b c : Bid => floatRepr b.amount < floatRepr c.amount) a.bids →
      ∀ h : a.bids ≠ [],
      determine_winner a.bids = some (a.bids.getLast h) ∧
      a.current_highest_bid = some ((a.bids.getLast h).amount) ∧
      a.highest_bidder_id = some ((a.bids.getLast h).bidder_id) := by
  intro w hr aid a hk hact hfl h
  have hOK := (inv_reachable hr).1 a (List.getElem?_mem hk)
  have hcache := hOK.2.2 hact
  have hlast : a.bids.getLast? = some (a.bids.getLast h) :=
    List.getLast?_eq_getLast_of_ne_nil h
  refine ⟨?_, by rw [hcache.1, hlast]; rfl, by rw [hcache.2, hlast]; rfl⟩
  apply determine_winner_unique _ _ (List.getLast_mem h)
  intro b hb hbne
  have hpair : List.Pairwise (fun x y : Bid => floatRepr x.amount < floatRepr y.amount) a.bids := by
    haveI : IsTrans Bid (fun x y : Bid => floatRepr x.amount < floatRepr y.amount) :=
      ⟨fun x y z h1 h2 => lt_trans h1 h2⟩
    exact List.chain'_iff_pairwise.mp hfl
  have hblt : floatRepr b.amount < floatRepr (a.bids.getLast h).amount := by
    rw [← List.dropLast_append_getLast h] at hpair hb
    obtain ⟨-, -, hcross⟩ := List.pairwise_append.mp hpair
    rcases List.mem_append.mp hb with hb | hb
    · exact hcross b hb _ (List.mem_singleton_self _)
    · exact absurd (List.mem_singleton.mp hb) hbne
  exact Or.inl (neg_lt_neg hblt)

/-- Witness for the amended C10 in the reachable world w2: the single
accepted bid is the winner and matches the cache. -/
theorem cache_agrees_with_winner_witness :
    determine_winner a2.bids = some bid1 ∧
    a2.current_highest_bid = some bid1.amount ∧
    a2.highest_bidder_id = some bid1.bidder_id :=
  cache_agrees_with_winner w2 reach_w2 0 a2 (by decide) rfl (by simp [a2]) (by decide)

lemma reach_w3 : Reachable w3 :=
  Reachable.step reach_w2 (Step.closeA w2 30 0)

lemma createAuctionApi_shape (now : Int) (w : World) (r : AuctionCreateRaw) :
    (createAuctionApi now w r).1.auctions = w.auctions ∨
    ∃ x : Auction, (createAuctionApi now w r).1.auctions = w.auctions ++ [x] := by
  unfold createAuctionApi
  cases hv : validateAuctionCreate r with
  | none => exact Or.inl rfl
  | some d =>
    dsimp only
    unfold create_auction
    have hau : (get_or_create_user w d.wallet_address).1.auctions = w.auctions :=
      get_or_create_user_auctions w d.wallet_address
    by_cases hf : d.flag_id ∈ w.flags
    · rw [if_pos hf]
      by_cases ho : (d.flag_id, (get_or_create_user w d.wallet_address).2) ∈
          (get_or_create_user w d.wallet_address).1.ownerships
      · rw [if_pos ho]
        by_cases ha : (get_or_create_user w d.wallet_address).1.auctions.any
            (fun a => decide (a.flag_id = d.flag_id ∧ a.status = .active)) = true
        · rw [if_pos ha]
          exact Or.inl hau
        · rw [if_neg ha]
          exact Or.inr ⟨_, by rw [← hau]⟩
      · rw [if_neg ho]
        exact Or.inl hau
    · rw [if_neg hf]
      exact Or.inl rfl

lemma placeBidApi_shape (now : Int) (w : World) (j : Nat) (r : BidCreateRaw) :
    (placeBidApi now w j r).1.auctions = w.auctions ∨
    ∃ (b x : Auction), w.auctions[j]? = some b ∧ b.status = .active ∧
      (placeBidApi now w j r).1.auctions = w.auctions.set j x := by
  unfold placeBidApi
  cases hv : validateBidCreate r with
  | none => exact Or.inl rfl
  | some d =>
    dsimp only
    unfold place_bid
    cases hk : w.auctions[j]? with
    | none => exact Or.inl rfl
    | some b =>
      dsimp only
      have hau : (get_or_create_user w d.wallet_address).1.auctions = w.auctions :=
        get_or_create_user_auctions w d.wallet_address
      by_cases hs : b.status ≠ .active
      · rw [if_pos hs]
        exact Or.inl rfl
      · rw [if_neg hs]
        by_cases he : b.ends_at < now
        · rw [if_pos he]
          exact Or.inl rfl
        · rw [if_neg he]
          by_cases hself : (get_or_create_user w d.wallet_address).2 = b.seller_id
          · rw [if_pos hself]
            exact Or.inl hau
          · rw [if_neg hself]
            by_cases hmin : d.amount < b.min_price
            · rw [if_pos hmin]
              exact Or.inl hau
            · rw [if_neg hmin]
              by_cases hblk : highestBlocks b.current_highest_bid d.amount = true
              · rw [if_pos hblk]
                exact Or.inl hau
              · rw [if_neg hblk]
                by_cases hst : d.amount < b.starting_price
                · rw [if_pos hst]
                  exact Or.inl hau
                · rw [if_neg hst]
                  exact Or.inr ⟨b, _, rfl, not_not.mp hs, by rw [← hau]⟩

lemma buyoutApi_shape (now : Int) (w : World) (j : Nat) (r : BuyoutCreateRaw) :
    (buyoutApi now w j r).1.auctions = w.auctions ∨
    ∃ (b x : Auction), w.auctions[j]? = some b ∧ b.status = .active ∧
      (buyoutApi now w j r).1.auctions = w.auctions.set j x := by
  unfold buyoutApi
  cases hv : validateBuyoutCreate r with
  | none => exact Or.inl rfl
  | some d =>
    dsimp only
    unfold buyout_auction
    cases hk : w.auctions[j]? with
    | none => exact Or.inl rfl
    | some b =>
      dsimp only
      have hau : (get_or_create_user w d.wallet_address).1.auctions = w.auctions :=
        get_or_create_user_auctions w d.wallet_address
      by_cases hs : b.status ≠ .active
      · rw [if_pos hs]
        exact Or.inl rfl
      · rw [if_neg hs]
        cases hbp : b.buyout_price with
        | none => exact Or.inl rfl
        | some bp =>
          dsimp only
          by_cases he : b.ends_at < now
          · rw [if_pos he]
            exact Or.inl rfl
          · rw [if_neg he]
            by_cases hself : (get_or_create_user w d.wallet_address).2 = b.seller_id
            · rw [if_pos hself]
              exact Or.inl hau
            · rw [if_neg hself]
              exact Or.inr ⟨b, _, rfl, not_not.mp hs, by rw [← hau]⟩

lemma close_auction_shape (now : Int) (w : World) (j : Nat) :
    (close_auction now w j).1.auctions = w.auctions ∨
    ∃ (b x : Auction), w.auctions[j]? = some b ∧ b.status = .active ∧
      (close_auction now w j).1.auctions = w.auctions.set j x := by
  unfold close_auction
  cases hk : w.auctions[j]? with
  | none => exact Or.inl rfl
  | some b =>
    dsimp only
    by_cases hs : b.status ≠ .active
    · rw [if_pos hs]
      exact Or.inl rfl
    · rw [if_neg hs]
      by_cases he : now < b.ends_at
      · rw [if_pos he]
        exact Or.inl rfl
      · rw [if_neg he]
        cases hwb : determine_winner b.bids with
        | some wb => exact Or.inr ⟨b, _, rfl, not_not.mp hs, rfl⟩
        | none => exact Or.inr ⟨b, _, rfl, not_not.mp hs, rfl⟩

lemma cancel_auction_shape (w : World) (j : Nat) (s : String) :
    (cancel_auction w j s).1.auctions = w.auctions ∨
    ∃ (b x : Auction), w.auctions[j]? = some b ∧ b.status = .active ∧
      (cancel_auction w j s).1.auctions = w.auctions.set j x := by
  unfold cancel_auction
  cases hk : w.auctions[j]? with
  | none => exact Or.inl rfl
  | some b =>
    dsimp only
    cases hu : findUserIdx w.users (pyLower s) with
    | none => exact Or.inl rfl
    | some uid =>
      dsimp only
      by_cases hsel : uid ≠ b.seller_id
      · rw [if_pos hsel]
        exact Or.inl rfl
      · rw [if_neg hsel]
        by_cases hs : b.status ≠ .active
        · rw [if_pos hs]
          exact Or.inl rfl
        · rw [if_neg hs]
          by_cases hb : b.current_highest_bid.isSome = true
          · rw [if_pos hb]
            exact Or.inl rfl
          · rw [if_neg hb]
            exact Or.inr ⟨b, _, rfl, not_not.mp hs, rfl⟩

/-- Any step leaves a non-active auction row untouched: operations on it
fail before mutating it, and operations on other rows never reach it. -/
lemma step_preserves_terminal {w w' : World} {aid : Nat} {a : Auction}
    (hk : w.auctions[aid]? = some a) (hna : a.status ≠ .active)
    (s : Step w w') : w'.auctions[aid]? = some a := by
  have hlen : aid < w.auctions.length := by
    rcases List.getElem?_eq_some.mp hk with ⟨h, -⟩
    exact h
  cases s with
  | createA now r =>
    rcases createAuctionApi_shape now w r with h | ⟨x, h⟩
    · rw [h]
      exact hk
    · rw [h, List.getElem?_append_left hlen]
      exact hk
  | placeB now j r =>
    rcases placeBidApi_shape now w j r with h | ⟨b, x, hb, hbact, h⟩
    · rw [h]
      exact hk
    · rw [h]
      by_cases hj : j = aid
      · subst hj
        rw [hb] at hk
        injection hk with hk
        exact absurd (hk ▸ hbact) hna
      · rw [List.getElem?_set_ne hj]
        exact hk
  | buyoutA now j r =>
    rcases buyoutApi_shape now w j r with h | ⟨b, x, hb, hbact, h⟩
    · rw [h]
      exact hk
    · rw [h]
      by_cases hj : j = aid
      · subst hj
        rw [hb] at hk
        injection hk with hk
        exact absurd (hk ▸ hbact) hna
      · rw [List.getElem?_set_ne hj]
        exact hk
  | closeA now j =>
    rcases close_auction_shape now w j with h | ⟨b, x, hb, hbact, h⟩
    · rw [h]
      exact hk
    · rw [h]
      by_cases hj : j = aid
      · subst hj
        rw [hb] at hk
        injection hk with hk
        exact absurd (hk ▸ hbact) hna
      · rw [List.getElem?_set_ne hj]
        exact hk
  | cancelA j wa =>
    rcases cancel_auction_shape w j wa with h | ⟨b, x, hb, hbact, h⟩
    · rw [h]
      exact hk
    · rw [h]
      by_cases hj : j = aid
      · subst hj
        rw [hb] at hk
        injection hk with hk
        exact absurd (hk ▸ hbact) hna
      · rw [List.getElem?_set_ne hj]
        exact hk

/-- C5 counterexample: in the reachable world w3 auction 0 is Closed, yet
Cancel invoked by a non-seller fails with the 403 not-the-seller error (the
Forbidden class), not with the 400 not-active error the claim requires for
every post-terminal call. -/
theorem cancel_on_closed_not_invalid_state :
    Reachable w3 ∧
    (w3.auctions[0]?).map Auction.status = some AuctionStatus.closed ∧
    (cancel_auction w3 0 walletB).2 = Except.error ApiError.notSeller ∧
    httpStatus ApiError.notSeller = 403 ∧
    ApiError.notSeller ≠ ApiError.notActive :=
  ⟨reach_w3, by decide, by decide, rfl, by decide⟩

/-- C5 amended: once an auction is Closed or Cancelled, PlaceBid, Buyout
and Close on it fail with the 400 not-active (InvalidState) error and leave
the whole world unchanged; Cancel also fails and leaves the world
unchanged, with the not-active error when the requester resolves to the
seller and the 403 not-the-seller error otherwise; and no step of the
system ever modifies the terminal row again (in particular no reputation is
awarded for it and it never returns to Active). -/
theorem terminal_states_final :
    ∀ (w : World) (aid : Nat) (a : Auction), w.auctions[aid]? = some a →
      a.status = .closed ∨ a.status = .cancelled →
      (∀ (now : Int) (d : BidCreate),
        place_bid now w aid d = (w, Except.error ApiError.notActive)) ∧
      (∀ (now : Int) (d : BuyoutCreate),
        buyout_auction now w aid d = (w, Except.error ApiError.notActive)) ∧
      (∀ now : Int, close_auction now w aid = (w, Except.error ApiError.notActive)) ∧
      (∀ s : String, (cancel_auction w aid s).1 = w ∧
        ((cancel_auction w aid s).2 = Except.error ApiError.notSeller ∨
          (cancel_auction w aid s).2 = Except.error ApiError.notActive)) ∧
      (∀ w' : World, Step w w' → w'.auctions[aid]? = some a) := by
  intro w aid a hk hterm
  have hna : a.status ≠ .active := by
    rcases hterm with h | h <;> rw [h] <;> intro hc <;> exact AuctionStatus.noConfusion hc
  refine ⟨?_, ?_, ?_, ?_, ?_⟩
  · intro now d
    unfold place_bid
    rw [hk]
    dsimp only
    rw [if_pos hna]
  · intro now d
    unfold buyout_auction
    rw [hk]
    dsimp only
    rw [if_pos hna]
  · intro now
    unfold close_auction
    rw [hk]
    dsimp only
    rw [if_pos hna]
  · intro s
    unfold cancel_auction
    rw [hk]
    dsimp only
    cases hu : findUserIdx w.users (pyLower s) with
    | none => exact ⟨rfl, Or.inl rfl⟩
    | some uid =>
      dsimp only
      by_cases hsel : uid ≠ a.seller_id
      · rw [if_pos hsel]
        exact ⟨rfl, Or.inl rfl⟩
      · rw [if_neg hsel, if_pos hna]
        exact ⟨rfl, Or.inr rfl⟩
  · intro w' s
    exact step_preserves_terminal hk hna s

/-- Witness for C5 (amended) on the closed scenario auction of w3. -/
theorem terminal_states_final_witness :
    place_bid 31 w3 0 { wallet_address := walletB, amount := 99, bidder_category := .standard } =
      (w3, Except.error ApiError.notActive) ∧
    buyout_auction 31 w3 0 { wallet_address := walletB } =
      (w3, Except.error ApiError.notActive) ∧
    close_auction 31 w3 0 = (w3, Except.error ApiError.notActive) ∧
    (cancel_auction w3 0 walletA).1 = w3 ∧
    ((cancel_auction w3 0 walletA).2 = Except.error ApiError.notSeller ∨
      (cancel_auction w3 0 walletA).2 = Except.error ApiError.notActive) := by
  have h := terminal_states_final w3 0 a3 (by decide) (Or.inl rfl)
  exact ⟨h.1 31 _, h.2.1 31 _, h.2.2.1 31, h.2.2.2.1 walletA⟩

lemma add_reputation_self {users : List UserRow} {uid : Nat} {u : UserRow}
    (h : users[uid]? = some u) (delta : Int) :
    (add_reputation users uid delta)[uid]? = some (u.1, u.2 + delta) := by
  unfold add_reputation
  rw [h]
  have hlen : uid < users.length := by
    rcases List.getElem?_eq_some.mp h with ⟨hl, -⟩
    exact hl
  rw [List.getElem?_set_eq_of_lt _ hlen]

lemma add_reputation_other {users : List UserRow} {uid j : Nat}
    (hne : j ≠ uid) (delta : Int) :
    (add_reputation users uid delta)[j]? = users[j]? := by
  unfold add_reputation
  cases h : users[uid]? with
  | none => rfl
  | some u => rw [List.getElem?_set_ne (fun hh => hne hh.symm)]

/-- C6: a successful buyout closes the auction, caches buyout_price and the
buyer, and adds exactly 20 reputation points to the buyer and to nobody
else; a successful close with a winning bid closes the auction, copies the
winning bid into the cache and winner_category, and adds exactly 15 points
to the winner and to nobody else (and a non-empty bid list always yields a
winning bid); a close with no bids closes the auction and leaves every
reputation score unchanged. -/
theorem settlement_reputation_effects :
    (∀ (now : Int) (w w1 : World) (aid buyer : Nat) (d : BuyoutCreate)
        (a : Auction) (bp : Rat) (u : UserRow),
      w.auctions[aid]? = some a → a.status = .active → a.buyout_price = some bp →
      ¬ a.ends_at < now → get_or_create_user w d.wallet_address = (w1, buyer) →
      buyer ≠ a.seller_id → w1.users[buyer]? = some u →
      buyout_auction now w aid d =
        ({ w1 with
            auctions := w1.auctions.set aid { a with
              status := .closed
              current_highest_bid := some bp
              highest_bidder_id := some buyer }
            users := add_reputation w1.users buyer 20 },
          Except.ok { a with
            status := .closed
            current_highest_bid := some bp
            highest_bidder_id := some buyer }) ∧
      (add_reputation w1.users buyer 20)[buyer]? = some (u.1, u.2 + 20) ∧
      (∀ j, j ≠ buyer → (add_reputation w1.users buyer 20)[j]? = w1.users[j]?)) ∧
    (∀ (now : Int) (w : World) (aid : Nat) (a : Auction) (wb : Bid) (u : UserRow),
      w.auctions[aid]? = some a → a.status = .active → ¬ now < a.ends_at →
      determine_winner a.bids = some wb → w.users[wb.bidder_id]? = some u →
      close_auction now w aid =
        ({ w with
            auctions := w.auctions.set aid { a with
              status := .closed
              highest_bidder_id := some wb.bidder_id
              current_highest_bid := some wb.amount
              winner_category := some wb.bidder_category }
            users := add_reputation w.users wb.bidder_id 15 },
          Except.ok { a with
            status := .closed
            highest_bidder_id := some wb.bidder_id
            current_highest_bid := some wb.amount
            winner_category := some wb.bidder_category }) ∧
      (add_reputation w.users wb.bidder_id 15)[wb.bidder_id]? = some (u.1, u.2 + 15) ∧
      (∀ j, j ≠ wb.bidder_id → (add_reputation w.users wb.bidder_id 15)[j]? = w.users[j]?)) ∧
    (∀ bids : List Bid, bids ≠ [] → ∃ wb, determine_winner bids = some wb) ∧
    (∀ (now : Int) (w : World) (aid : Nat) (a : Auction),
      w.auctions[aid]? = some a → a.status = .active → ¬ now < a.ends_at →
      a.bids = [] →
      close_auction now w aid =
        ({ w with auctions := w.auctions.set aid { a with status := .closed } },
          Except.ok { a with status := .closed }) ∧
      (close_auction now w aid).1.users = w.users) := by
  refine ⟨?_, ?_, ?_, ?_⟩
  · intro now w w1 aid buyer d a bp u hk hact hbp he hgoc hself hu
    unfold buyout_auction
    rw [hk]
    dsimp only
    rw [if_neg (not_ne_iff.mpr hact), hbp]
    dsimp only
    rw [if_neg he, hgoc]
    dsimp only
    rw [if_neg hself]
    exact ⟨rfl, add_reputation_self hu 20, fun j hj => add_reputation_other hj 20⟩
  · intro now w aid a wb u hk hact he hwb hu
    unfold close_auction
    rw [hk]
    dsimp only
    rw [if_neg (not_ne_iff.mpr hact), if_neg he, hwb]
    exact ⟨rfl, add_reputation_self hu 15, fun j hj => add_reputation_other hj 15⟩
  · intro bids hne
    obtain ⟨wb, hwb, -, -⟩ := determine_winner_min bids hne
    exact ⟨wb, hwb⟩
  · intro now w aid a hk hact he hbids
    unfold close_auction
    rw [hk]
    dsimp only
    rw [if_neg (not_ne_iff.mpr hact), if_neg he, hbids]
    exact ⟨rfl, rfl⟩

/-- Witness for C6: +20 for the concrete buyer of w1's auction, +15 for the
concrete close winner of w2, and untouched users on a bid-less close. -/
theorem settlement_reputation_effects_witness :
    (add_reputation wB1.users 1 20)[1]? = some (walletB, (0 : Int) + 20) ∧
    (add_reputation w2.users 1 15)[1]? = some (walletB, (0 : Int) + 15) ∧
    (close_auction 30 w1 0).1.users = w1.users := by
  refine ⟨?_, ?_, ?_⟩
  · exact (settlement_reputation_effects.1 2 w1 wB1 0 1 { wallet_address := walletB }
      a1 50 (walletB, 0) (by decide) rfl rfl (by decide) (by decide) (by decide)
      (by decide)).2.1
  · exact (settlement_reputation_effects.2.1 30 w2 0 a2 bid1 (walletB, 0)
      (by decide) rfl (by decide) (by decide) (by decide)).2.1
  · exact (settlement_reputation_effects.2.2.2 30 w1 0 a1
      (by decide) rfl (by decide) rfl).2

/-- C7 counterexample: a self-bid on the active auction of w1 is rejected
with the 400 own-auction error, not with a 403 Forbidden as the claim
states. -/
theorem self_bid_not_403 :
    (place_bid 2 w1 0 { wallet_address := walletA, amount := 10, bidder_category := .standard }).2 =
      Except.error ApiError.ownAuction ∧
    httpStatus ApiError.ownAuction = 400 ∧
    httpStatus ApiError.ownAuction ≠ 403 :=
  ⟨by decide, rfl, by decide⟩

/-- C7 amended: a bid whose wallet resolves to the auction's seller is
rejected by a dedicated own-auction error condition, distinct from the
amount errors (InvalidArgument class) and the state errors (InvalidState
class), but it is raised as HTTP 400 BAD_REQUEST, not 403 Forbidden. -/
theorem self_bid_rejected (now : Int) (w : World) (aid : Nat) (d : BidCreate)
    (a : Auction) (hk : w.auctions[aid]? = some a) (hact : a.status = .active)
    (he : ¬ a.ends_at < now)
    (hself : (get_or_create_user w d.wallet_address).2 = a.seller_id) :
    place_bid now w aid d =
      ((get_or_create_user w d.wallet_address).1, Except.error ApiError.ownAuction) ∧
    httpStatus ApiError.ownAuction = 400 ∧
    ApiError.ownAuction ≠ ApiError.belowMinPrice ∧
    ApiError.ownAuction ≠ ApiError.notAboveHighest ∧
    ApiError.ownAuction ≠ ApiError.belowStartingPrice ∧
    ApiError.ownAuction ≠ ApiError.notActive ∧
    ApiError.ownAuction ≠ ApiError.auctionEnded := by
  refine ⟨?_, rfl, by decide, by decide, by decide, by decide, by decide⟩
  unfold place_bid
  rw [hk]
  dsimp only
  rw [if_neg (not_ne_iff.mpr hact), if_neg he, if_pos hself]

/-- Witness for the amended C7 at the concrete self-bid on w1. -/
theorem self_bid_rejected_witness :
    place_bid 2 w1 0 { wallet_address := walletA, amount := 10, bidder_category := .standard } =
      ((get_or_create_user w1 walletA).1, Except.error ApiError.ownAuction) :=
  (self_bid_rejected 2 w1 0
    { wallet_address := walletA, amount := 10, bidder_category := .standard }
    a1 (by decide) rfl (by decide) (by decide)).1

lemma findUserIdx_eq_none {users : List UserRow} {wa : String}
    (h : ∀ u ∈ users, u.1 ≠ wa) : findUserIdx users wa = none := by
  induction users with
  | nil => rfl
  | cons u rest ih =>
    unfold findUserIdx
    rw [if_neg (h u (List.mem_cons_self u rest)),
      ih (fun v hv => h v (List.mem_cons_of_mem u hv))]
    rfl

/-- C8 counterexample: creating an auction in w0 with an unknown seller
wallet does not fail with NotFound — the wallet is silently registered as a
new user (a state change) and creation then fails with the 403
not-the-owner error. -/
theorem unknown_seller_not_notfound :
    (create_auction 0 w0
        { flag_id := 1, wallet_address := walletB, starting_price := 2,
          min_price := 2, buyout_price := none, duration_hours := 24 }).2 =
      Except.error ApiError.notOwner ∧
    httpStatus ApiError.notOwner = 403 ∧
    ApiError.notOwner ≠ ApiError.flagNotFound ∧
    ApiError.notOwner ≠ ApiError.auctionNotFound ∧
    (create_auction 0 w0
        { flag_id := 1, wallet_address := walletB, starting_price := 2,
          min_price := 2, buyout_price := none, duration_hours := 24 }).1.users ≠ w0.users :=
  ⟨by decide, rfl, by decide, by decide, by decide⟩

/-- C8 amended: create_auction fails with 404 NotFound when the flag is
unknown (leaving the world untouched); when the flag exists but the seller
wallet is unknown, get_or_create_user first registers the wallet as a fresh
user — a state change — and creation then fails with 403 Forbidden, because
the fresh user id (fresh by referential integrity of the ownership table)
owns no flag; in both cases the auctions table is unchanged. -/
theorem create_auction_unknown_refs (now : Int) (w : World) (d : AuctionCreate) :
    (d.flag_id ∉ w.flags →
      create_auction now w d = (w, Except.error ApiError.flagNotFound) ∧
      httpStatus ApiError.flagNotFound = 404) ∧
    (d.flag_id ∈ w.flags →
      (∀ u ∈ w.users, u.1 ≠ pyLower d.wallet_address) →
      (d.flag_id, w.users.length) ∉ w.ownerships →
      create_auction now w d =
        ({ w with users := w.users ++ [(pyLower d.wallet_address, 0)] },
          Except.error ApiError.notOwner) ∧
      httpStatus ApiError.notOwner = 403 ∧
      (create_auction now w d).1.auctions = w.auctions) := by
  constructor
  · intro hf
    constructor
    · unfold create_auction
      rw [if_neg hf]
    · rfl
  · intro hf hwal ho
    have hg : get_or_create_user w d.wallet_address =
        ({ w with users := w.users ++ [(pyLower d.wallet_address, 0)] }, w.users.length) := by
      unfold get_or_create_user
      dsimp only
      rw [findUserIdx_eq_none hwal]
    have hmain : create_auction now w d =
        ({ w with users := w.users ++ [(pyLower d.wallet_address, 0)] },
          Except.error ApiError.notOwner) := by
      unfold create_auction
      rw [if_pos hf, hg]
      dsimp only
      rw [if_neg ho]
    exact ⟨hmain, rfl, by rw [hmain]⟩

/-- Witness for the amended C8: unknown flag 99 in w0, and the unknown
seller wallet of the counterexample scenario. -/
theorem create_auction_unknown_refs_witness :
    create_auction 0 w0
        { flag_id := 99, wallet_address := walletB, starting_price := 2,
          min_price := 2, buyout_price := none, duration_hours := 24 } =
      (w0, Except.error ApiError.flagNotFound) ∧
    create_auction 0 w0
        { flag_id := 1, wallet_address := walletB, starting_price := 2,
          min_price := 2, buyout_price := none, duration_hours := 24 } =
      ({ w0 with users := w0.users ++ [(pyLower walletB, 0)] },
        Except.error ApiError.notOwner) := by
  constructor
  · exact ((create_auction_unknown_refs 0 w0
      { flag_id := 99, wallet_address := walletB, starting_price := 2,
        min_price := 2, buyout_price := none, duration_hours := 24 }).1 (by decide)).1
  · exact ((create_auction_unknown_refs 0 w0
      { flag_id := 1, wallet_address := walletB, starting_price := 2,
        min_price := 2, buyout_price := none, duration_hours := 24 }).2
      (by decide) (by decide) (by decide)).1

/-- Validation of the float model: 0.1 rounds to the well-known double
3602879701896397 * 2^-55. -/
lemma floatRepr_tenth : floatRepr (mkRat 1 10) = mkRat 3602879701896397 36028797018963968 := by
  decide

/-- Validation of the float model: 1/3 rounds to the double
6004799503160661 * 2^-54. -/
lemma floatRepr_third : floatRepr (mkRat 1 3) = mkRat 6004799503160661 18014398509481984 := by
  decide

/-- Validation of the float model: integers of ordinary size are exact. -/
lemma floatRepr_hundred : floatRepr 100 = 100 := by
  decide

/-- Validation of the float model: 1 + 2^-53, exactly halfway between two
doubles, rounds to the even significand, i.e. down to 1. -/
lemma floatRepr_tie_even : floatRepr (mkRat 9007199254740993 9007199254740992) = 1 := by
  decide

lemma reach_wf1 : Reachable wf1 :=
  Reachable.step reach_w1 (Step.placeB w1 1 0 rawBidF1)

lemma reach_wf2 : Reachable wf2 :=
  Reachable.step reach_wf1 (Step.placeB wf1 2 0 rawBidF2)

/-- C1 counterexample: the float conversion in the sort key collapses the
distinct amounts 500000000.00000002 (Standard, earlier) and
500000000.00000001 (Premium, later) to the same double, so determine_winner
returns the Premium bid despite its strictly lower decimal amount — the
selected bid is not maximal under the highest-exact-amount-first order the
claim asserts. -/
theorem winner_not_max_exact_amount :
    amtF1 < amtF2 ∧
    floatRepr amtF1 = floatRepr amtF2 ∧
    determine_winner
        [{ bidder_id := 1, amount := amtF2, bidder_category := .standard, created_at := 0 },
         { bidder_id := 2, amount := amtF1, bidder_category := .premium, created_at := 1 }] =
      some { bidder_id := 2, amount := amtF1, bidder_category := .premium, created_at := 1 } :=
  ⟨by decide, by decide, by decide⟩

/-- C10 counterexample: in the reachable world wf2 the auction accepted the
strictly increasing decimal amounts amtF1 (Premium) then amtF2 (Standard);
their float images tie, so winner determination at close picks the earlier
Premium bid, not the most recently accepted one cached in
current_highest_bid / highest_bidder_id. -/
theorem cache_disagrees_with_winner :
    Reachable wf2 ∧
    wf2.auctions[0]? = some af2 ∧
    af2.status = .active ∧
    af2.bids.getLast? = some bidF2 ∧
    af2.current_highest_bid = some bidF2.amount ∧
    af2.highest_bidder_id = some bidF2.bidder_id ∧
    List.Chain' (fun b c : Bid => b.amount < c.amount) af2.bids ∧
    determine_winner af2.bids = some bidF1 ∧
    bidF1.bidder_id ≠ bidF2.bidder_id ∧
    bidF1.amount < bidF2.amount :=
  ⟨reach_wf2, by decide, rfl, by decide, by decide, by decide,
    List.chain'_pair.mpr (by decide), by decide, by decide, by decide⟩

end FlagAuction
